import Mathlib

/-!
Verification of the remote CRUD-to-RPC translation layer (`Types/_source/SbisService.ts`,
`Types/_source/provider/SbisBusinessLogic.ts`, `Types/_source/Remote.ts`).

The embedding is shallow: JavaScript values appearing in filter objects become
the type `JsValue`; JavaScript plain objects become association lists kept in property
order; promises with timers become explicit settlement records carrying a settle time.
Every definition is translated from the source file it names in its doc comment.
-/

namespace SbisTypes

/-- JavaScript value as it appears in query filters and payloads: `undefined`,
`null`, numbers, strings, and values wrapped in `Types/entity:applied.PrimaryKey`. -/
inductive JsValue where
  | undef : JsValue
  | null : JsValue
  | num : Int → JsValue
  | str : String → JsValue
  | pk : Int → JsValue
deriving DecidableEq, Repr

/-- A JavaScript plain object, kept as an association list in property order. -/
abbrev JsObject := List (String × JsValue)

/-- Lookup of a property in a plain object (first binding wins; keys are unique). -/
def objGet (m : JsObject) (k : String) : JsValue :=
  match m.find? (fun p => p.1 = k) with
  | some p => p.2
  | none => JsValue.undef

/-- Property assignment `m[k] = v` of a JavaScript object: an existing key keeps its
position and gets the new value, a new key is appended (object keys are unique, so
replacing the first occurrence is replacing the occurrence). -/
def objSet : JsObject → String → JsValue → JsObject
  | [], k, v => [(k, v)]
  | p :: rest, k, v => if p.1 = k then (k, v) :: rest else p :: objSet rest k v

-- ---------------------------------------------------------------------------
-- Composite identifiers (src/Types/_source/SbisService.ts, lines 36-156)
-- ---------------------------------------------------------------------------
/-- Character class `[0-9]` of `COMPLEX_ID_MATCH` (SbisService.ts line 39). -/
def isDigitCh (c : Char) : Bool := '0' ≤ c && c ≤ '9'

/-- Character class `[А-яA-z0-9]` of `COMPLEX_ID_MATCH` (SbisService.ts line 39).
`A-z` spans ASCII 65..122, which covers `A-Z`, `a-z` and the six characters between
them; `А-я` spans the Cyrillic block U+0410..U+044F. -/
def isNameCh (c : Char) : Bool :=
  ('A' ≤ c && c ≤ 'z') || isDigitCh c || ('А' ≤ c && c ≤ 'я')

/-- Test of `id.match(COMPLEX_ID_MATCH)` with `COMPLEX_ID_MATCH = /^[0-9]+,[А-яA-z0-9]+$/`
(SbisService.ts line 39), on the identifier's character list: a non-empty digit prefix,
one comma, then a non-empty suffix in the name class (neither class contains a comma,
so the comma split below is exact). -/
def complexIdMatch (s : List Char) : Bool :=
  let before := s.takeWhile (fun c => c != ',')
  match s.dropWhile (fun c => c != ',') with
  | [] => false
  | _ :: after =>
    decide (before ≠ []) && before.all isDigitCh && decide (after ≠ []) && after.all isNameCh

/-- `getKeyByComplexId` (SbisService.ts lines 113-119): on a match, the part before the
comma (`id.split(',')[0]`); otherwise the identifier itself. -/
def getKeyByComplexId (s : List Char) : List Char :=
  if complexIdMatch s then s.takeWhile (fun c => c != ',') else s

/-- `getNameByComplexId` (SbisService.ts lines 124-130): on a match, the part after the
comma (`id.split(',')[1]`); otherwise the supplied default. -/
def getNameByComplexId (s : List Char) (defaults : List Char) : List Char :=
  if complexIdMatch s then (s.dropWhile (fun c => c != ',')).drop 1 else defaults

/-- Modelled from the spec: the claim's own identifier pattern `^[0-9]+,[A-Za-z0-9]+$`
(spec section 4.2, "Composite identifier parsing"), stated for comparison with the
source's `complexIdMatch`. Its suffix class is ASCII letters and digits only. -/
def isSpecNameCh (c : Char) : Bool :=
  ('A' ≤ c && c ≤ 'Z') || ('a' ≤ c && c ≤ 'z') || isDigitCh c

/-- Modelled from the spec: matcher for the claimed pattern `^[0-9]+,[A-Za-z0-9]+$`. -/
def specComplexIdMatch (s : List Char) : Bool :=
  let before := s.takeWhile (fun c => c != ',')
  match s.dropWhile (fun c => c != ',') with
  | [] => false
  | _ :: after =>
    decide (before ≠ []) && before.all isDigitCh && decide (after ≠ []) && after.all isSpecNameCh

-- ---------------------------------------------------------------------------
-- Grouping by object name (src/Types/_source/SbisService.ts, lines 143-156)
-- ---------------------------------------------------------------------------
/-- String-level `getKeyByComplexId` (SbisService.ts lines 113-119). -/
def getKeyS (s : String) : String := (getKeyByComplexId s.toList).asString

/-- String-level `getNameByComplexId` (SbisService.ts lines 124-130). -/
def getNameS (s defaults : String) : String :=
  (getNameByComplexId s.toList defaults.toList).asString

/-- One step of the loop body of `getGroupsByComplexIds` (SbisService.ts lines 149-153):
`groups[name] = groups[name] || []; groups[name].push(key)`. An existing property keeps
its position in the object's creation order; a new property is appended. -/
def upsertGroup : List (String × List String) → String → String → List (String × List String)
  | [], name, key => [(name, [key])]
  | (n, ks) :: rest, name, key =>
    if n = name then (n, ks ++ [key]) :: rest else (n, ks) :: upsertGroup rest name key

/-- The loop of `getGroupsByComplexIds` (SbisService.ts lines 146-156) with explicit
accumulator, visiting the identifiers left to right. -/
def groupsCreate (ids : List String) (defaults : String)
    (acc : List (String × List String)) : List (String × List String) :=
  match ids with
  | [] => acc
  | id :: rest =>
    groupsCreate rest defaults (upsertGroup acc (getNameS id defaults) (getKeyS id))

/-- `getGroupsByComplexIds` (SbisService.ts lines 146-156): the groups object in its
property creation order. -/
def getGroupsByComplexIds (ids : List String) (defaults : String) :
    List (String × List String) :=
  groupsCreate ids defaults []

/-- Numeric value of a digit string (helper for the array-index test below). -/
def digitsVal (cs : List Char) : Nat :=
  cs.foldl (fun a c => a * 10 + (c.toNat - 48)) 0

/-- ECMAScript array-index property name: the canonical decimal form of an integer
below 2^32 - 1 (no leading zeros except "0" itself). Such keys are enumerated before
all other own string keys. -/
def isArrayIndexKey (s : String) : Bool :=
  let cs := s.toList
  decide (cs ≠ []) && cs.all Char.isDigit &&
    (decide (s = "0") || decide (cs.head? ≠ some ('0' : Char))) &&
    decide (digitsVal cs < 4294967295)

/-- Insertion into a list of array-index keys sorted by numeric value. -/
def insertByNum (s : String) : List String → List String
  | [] => [s]
  | q :: rest =>
    if digitsVal s.toList ≤ digitsVal q.toList then s :: q :: rest else q :: insertByNum s rest

/-- Ascending numeric sort of array-index keys. -/
def sortNumKeys : List String → List String
  | [] => []
  | s :: rest => insertByNum s (sortNumKeys rest)

/-- ECMAScript own-key enumeration order over a creation-ordered key list: array-index
keys first in ascending numeric order, then the remaining keys in creation order. This
is the order `Object.keys` yields, used by `destroy` and `move` to dispatch per-group
calls (SbisService.ts lines 1190, 1225). -/
def jsKeysEnum (names : List String) : List String :=
  sortNumKeys (names.filter isArrayIndexKey) ++ names.filter (fun s => !isArrayIndexKey s)

/-- `Object.keys` of the groups object. -/
def jsOwnKeys (gs : List (String × List String)) : List String :=
  jsKeysEnum (gs.map Prod.fst)

/-- Property read `groups[name]` of the groups object. -/
def glookup : List (String × List String) → String → Option (List String)
  | [], _ => none
  | (n, ks) :: rest, name => if n = name then some ks else glookup rest name

/-- The plain keys of all identifiers whose object name resolves to `n` (the expected
content of group `n`, in identifier order). -/
def keysOfName (ids : List String) (defaults n : String) : List String :=
  (ids.filter (fun i => getNameS i defaults = n)).map getKeyS

/-- First-seen order of the object names of a list of identifiers, continued after
the already-seen names in `acc`. -/
def namesFirstSeen (ids : List String) (defaults : String) (acc : List String) : List String :=
  match ids with
  | [] => acc
  | id :: rest =>
    namesFirstSeen rest defaults
      (if acc.contains (getNameS id defaults) then acc else acc ++ [getNameS id defaults])

-- ---------------------------------------------------------------------------
-- Provider call timeout (src/Types/_source/provider/SbisBusinessLogic.ts)
-- ---------------------------------------------------------------------------
/-- Settlement of an asynchronous call in virtual time: the instant at which the
underlying transport settles, and how (resolution value or rejection error). -/
inductive Settle (α : Type) where
  | resolved : Nat → α → Settle α
  | rejected : Nat → String → Settle α
deriving DecidableEq, Repr

/-- The instant at which a call settles. -/
def settleTime {α : Type} : Settle α → Nat
  | .resolved t _ => t
  | .rejected t _ => t

/-- The `timeoutError` message template of `getTimedOutResponse`
(SbisBusinessLogic.ts line 69). -/
def timeoutMessage (timeout : Nat) (methodName address : String) : String :=
  "Timeout of " ++ toString timeout ++ " ms had expired before the method \x27" ++
    methodName ++ "\x27 at \x27" ++ address ++ "\x27 returned any results"

/-- `getTimedOutResponse` (SbisBusinessLogic.ts lines 61-106) for a promise origin:
a timer is armed at `timeout`; when the origin settles, its handlers clear the timer
and settle the returned promise exactly as the origin did (same instant, same value or
error). When the timer fires first (the origin settles strictly later), its callback
only logs `timeoutError` through `logger.info` (`throwError`, lines 38-40, 80-83) and
clears itself — it does not reject the returned promise, which therefore still mirrors
the origin's eventual settlement. At a tie the origin's handlers are taken to clear
the timer first. -/
def getTimedOutResponse {α : Type} (origin : Settle α) (timeout : Nat)
    (methodName address : String) : Settle α × List String :=
  (origin,
   if timeout < settleTime origin then [timeoutMessage timeout methodName address] else [])

/-- `SbisBusinessLogic.call` (SbisBusinessLogic.ts lines 165-203): qualify the method
name with the endpoint contract unless it already contains the namespace separator,
invoke the transport, and, when a non-zero call timeout is configured
(`useTimeout = !!this._$callTimeout`), wrap the result in `getTimedOutResponse`.
The pair returned is (the caller-visible settlement, the logged messages). -/
def sbisBlCall {α : Type} (callTimeout : Nat) (contract address methodName : String)
    (transport : String → Settle α) : Settle α × List String :=
  let contractIncluded := methodName.toList.contains '.'
  let qualified :=
    if !contractIncluded && contract ≠ "" then contract ++ "." ++ methodName else methodName
  let result := transport qualified
  if callTimeout ≠ 0 then getTimedOutResponse result callTimeout qualified address
  else (result, [])

-- ---------------------------------------------------------------------------
-- Multi-group destroy / move dispatch (src/Types/_source/SbisService.ts)
-- ---------------------------------------------------------------------------
/-- `buildBlMethodName` (SbisService.ts lines 106-108): a method name already
containing the namespace separator is used verbatim, otherwise it is prefixed with
the object name and the separator. -/
def buildBlMethodName (objectName methodName : String) : String :=
  if methodName.toList.contains '.' then methodName
  else objectName ++ "." ++ methodName

/-- Outcome of one remote call: resolution or rejection with an error. -/
inductive POutcome (ε α : Type) where
  | ok : α → POutcome ε α
  | err : ε → POutcome ε α
deriving DecidableEq, Repr

/-- Whether a call resolved. -/
def POutcome.isOk {ε α : Type} : POutcome ε α → Bool
  | .ok _ => true
  | .err _ => false

/-- `Promise.all` over a list of already-settled outcomes: resolves with all values
when every member resolved, otherwise rejects with a rejection error (the real
combinator rejects with the first rejection in time; this timing-free model takes
the first in list order, which the theorems never depend on). -/
def promiseAll {ε α : Type} : List (POutcome ε α) → POutcome ε (List α)
  | [] => .ok []
  | .ok a :: rest =>
    match promiseAll rest with
    | .ok more => .ok (a :: more)
    | .err e => .err e
  | .err e :: _ => .err e

/-- The method name used by `destroy` for the group of object `name`
(SbisService.ts lines 1172-1177): the bare binding when the name is the endpoint
contract, otherwise the qualified name. -/
def destroyMethodFor (contract destroyBinding name : String) : String :=
  if contract = name then destroyBinding else buildBlMethodName name destroyBinding

/-- The per-group remote calls issued by `SbisService.destroy` on an identifier list
(SbisService.ts lines 1188-1194): one call per object name, enumerated in the groups
object's own-key order, each carrying that group's plain keys. All calls are issued
before any is awaited (`Object.keys(groups).map(...)` then `Promise.all`). -/
def destroyCalls (keys : List String) (contract destroyBinding : String) :
    List (String × List String) :=
  (jsOwnKeys (getGroupsByComplexIds keys contract)).map
    (fun name => (destroyMethodFor contract destroyBinding name,
                  (glookup (getGroupsByComplexIds keys contract) name).getD []))

/-- The per-group remote calls issued by `SbisService.move` (SbisService.ts lines
1224-1231): one call per object name against the move contract's move method,
carrying that group's plain keys. -/
def moveCalls (items : List String) (contract moveContract moveBinding : String) :
    List (String × List String) :=
  (jsOwnKeys (getGroupsByComplexIds items contract)).map
    (fun name => (buildBlMethodName moveContract moveBinding,
                  (glookup (getGroupsByComplexIds items contract) name).getD []))

/-- Dispatch of a prepared call list: the aggregate `Promise.all` outcome together
with the calls that resolved. The source has no compensation path after a rejection
(SbisService.ts lines 1160-1195, 1211-1232), so a resolved call's server-side effect
stands regardless of the aggregate outcome. -/
def runCalls (calls : List (String × List String))
    (transport : String → List String → POutcome String Unit) :
    POutcome String (List Unit) × List (String × List String) :=
  (promiseAll (calls.map (fun c => transport c.1 c.2)),
   calls.filter (fun c => (transport c.1 c.2).isOk))

/-- `SbisService.destroy` over an identifier array, as dispatch plus aggregation. -/
def destroyRun (keys : List String) (contract destroyBinding : String)
    (transport : String → List String → POutcome String Unit) :
    POutcome String (List Unit) × List (String × List String) :=
  runCalls (destroyCalls keys contract destroyBinding) transport

/-- `SbisService.move` over an identifier array, as dispatch plus aggregation. -/
def moveRun (items : List String) (contract moveContract moveBinding : String)
    (transport : String → List String → POutcome String Unit) :
    POutcome String (List Unit) × List (String × List String) :=
  runCalls (moveCalls items contract moveContract moveBinding) transport

-- ---------------------------------------------------------------------------
-- Query model and navigation (src/Types/_source/SbisService.ts, lines 277-472,
-- 664-694, 1197-1205; src/unnamed/part_001 = Types/_source/Remote, lines 494-537)
-- ---------------------------------------------------------------------------
/-- Navigation strategy names (`NAVIGATION_TYPE`, part_001 lines 61-64, plus the
`Position` variant used by SbisService's `getNavigationParams`). -/
inductive NavigationType where
  | Page : NavigationType
  | Position : NavigationType
  | Offset : NavigationType
deriving DecidableEq, Repr

/-- `CursorDirection` (SbisService.ts lines 43-47). -/
inductive CursorDirection where
  | backward : CursorDirection
  | forward : CursorDirection
  | bothways : CursorDirection
deriving DecidableEq, Repr

/-- The four `ExpandMode` variants consumed by `getFilterParams`
(SbisService.ts lines 449-465). -/
inductive ExpandMode where
  | noExpand : ExpandMode
  | nodes : ExpandMode
  | leaves : ExpandMode
  | all : ExpandMode
deriving DecidableEq, Repr

/-- Source-level options relevant to navigation: `navigationType`
(part_001 lines 494-537; SbisService inherits it unchanged, SbisService.ts lines
1525-1538). The `hasMoreProperty` meta key it also configures is abstracted into
`SubQuery.metaHasMore` below. -/
structure OptionsOption where
  navigationType : NavigationType
deriving DecidableEq, Repr

/-- One sub-query of a query (the query itself or a transitively unioned sub-query),
carrying the components `getNavigationParams`/`getFilterParams` read: the filter
expression as a plain object, offset, limit (`none` models both `undefined` and
`null`), and the meta entries `navigationType`, the configured has-more flag
(`some b` models `meta.hasOwnProperty(moreProp)` with value `b`), and `expand`.
The `orderBy`/`select` components feed only the sorting/additional-params payload
fields, which no claim touches, and are omitted. -/
structure SubQuery where
  whereF : JsObject
  offset : Int
  limit : Option Int
  metaNavType : Option NavigationType
  metaHasMore : Option Bool
  metaExpand : Option ExpandMode
deriving DecidableEq, Repr

/-- A sub-query with the given filter, offset and limit and no meta entries. -/
def mkSub (w : JsObject) (o : Int) (l : Option Int) : SubQuery :=
  { whereF := w, offset := o, limit := l, metaNavType := none, metaHasMore := none,
    metaExpand := none }

/-- `EXPRESSION_TEMPLATE = /(.+)([<>]=?|~)$/` (SbisService.ts line 41): split a filter
key into (bare field, trailing operator). The greedy `(.+)` makes the operator the
shortest valid suffix: a key ending in `=` matches only with a two-character operator
`<=`/`>=`; otherwise a final `<`, `>` or `~` is the operator; the field must be
non-empty. -/
def exprMatch (s : String) : Option (String × String) :=
  match s.toList.reverse with
  | [] => none
  | '=' :: c :: rest =>
    if (c = '<' || c = '>') && decide (rest ≠ []) then
      some (rest.reverse.asString, String.mk [c, '='])
    else none
  | c :: rest =>
    if (c = '<' || c = '>' || c = '~') && decide (rest ≠ []) then
      some (rest.reverse.asString, String.mk [c])
    else none

/-- The transient cursor built during position-mode navigation
(`ICursor`, SbisService.ts lines 49-52): position map (or `null`) and direction
(or unset). -/
structure CursorM where
  position : Option JsObject
  direction : Option CursorDirection
deriving DecidableEq, Repr

/-- The direction assigned by the `switch (operand)` of `applyPairToCursor`
(SbisService.ts lines 301-312): `~` → bothways, `<`/`<=` → backward, anything else
assigns nothing. -/
def opDirOf (op : String) : Option CursorDirection :=
  if op = "~" then some CursorDirection.bothways
  else if op = "<" || op = "<=" then some CursorDirection.backward
  else none

/-- `applyPairToCursor` (SbisService.ts lines 277-315): skip `undefined` values and
keys without a trailing operator; otherwise add a non-`null` value to the position
map under the bare field name, assign the direction from the operand only when no
direction is set yet, and report the pair as consumed. -/
def applyPairToCursor (expr : String) (value : JsValue) (cursor : CursorM) :
    Bool × CursorM :=
  if value = JsValue.undef then (false, cursor)
  else
    match exprMatch expr with
    | none => (false, cursor)
    | some fo =>
      let c1 := if value ≠ JsValue.null then
          { cursor with position := some (objSet (cursor.position.getD []) fo.1 value) }
        else cursor
      let c2 := if c1.direction = none then { c1 with direction := opDirOf fo.2 } else c1
      (true, c2)

/-- The `playExpression` loop of the position branch of `getNavigationParams`
(SbisService.ts lines 357-363) over a plain-object filter: visit the key/value pairs
in property order, threading the cursor, and collect the consumed keys (each consumed
key is deleted from the filter object by the loop body). -/
def posScan : JsObject → CursorM → CursorM × List String
  | [], c => (c, [])
  | p :: rest, c =>
    let step := applyPairToCursor p.1 p.2 c
    let next := posScan rest step.2
    (next.1, if step.1 then p.1 :: next.2 else next.2)

/-- A navigation payload for one sub-query (SbisService.ts lines 340-383); field
order mirrors the wire objects `{Страница, РазмерСтраницы, ЕстьЕще}`,
`{Offset, Limit, HasMore}` and `{HasMore, Limit, Direction, Position}` (the position
is kept as the raw map the source wraps through `buildRecord`; the cursor only ever
builds a plain object, so the record-set branch for array-shaped positions is
unreachable from this loop). -/
inductive NavParams where
  | page : Int → Option Int → Bool → NavParams
  | offsetNav : Int → Option Int → Bool → NavParams
  | position : Bool → Int → CursorDirection → Option JsObject → NavParams
deriving DecidableEq, Repr

/-- `more` (SbisService.ts lines 330-333): the meta has-more flag when present,
otherwise `offset >= 0`. -/
def hasMoreOf (s : SubQuery) : Bool :=
  s.metaHasMore.getD (decide (0 ≤ s.offset))

/-- The `NavigationType.Page` branch of `getNavigationParams` (SbisService.ts lines
340-348): suppressed when offset is 0 and limit is unset; otherwise
`{Страница: limit > 0 ? Math.floor(offset / limit) : 0, РазмерСтраницы: limit,
ЕстьЕще: more}`. -/
def pageNavParams (s : SubQuery) : Option NavParams :=
  if ¬(s.offset = 0) ∨ ¬(s.limit = none) then
    some (NavParams.page
      (match s.limit with
       | some l => if 0 < l then Int.fdiv s.offset l else 0
       | none => 0)
      s.limit (hasMoreOf s))
  else none

/-- The default branch of `getNavigationParams` (SbisService.ts lines 376-383):
offset-mode payload `{Offset, Limit, HasMore}`, suppressed under the same condition. -/
def offsetNavParams (s : SubQuery) : Option NavParams :=
  if ¬(s.offset = 0) ∨ ¬(s.limit = none) then
    some (NavParams.offsetNav s.offset s.limit (hasMoreOf s))
  else none

/-- The `NavigationType.Position` branch of `getNavigationParams` (SbisService.ts
lines 350-374): only when a limit is set, scan the filter, delete every consumed key
from it, and emit `{HasMore, Limit, Direction: cursor.direction || forward,
Position: cursor.position}`. Returns the payload together with the filter object as
it stands after the deletions. -/
def positionNavParams (s : SubQuery) : Option NavParams × JsObject :=
  match s.limit with
  | none => (none, s.whereF)
  | some l =>
    let scan := posScan s.whereF { position := none, direction := none }
    (some (NavParams.position (hasMoreOf s) l
        (scan.1.direction.getD CursorDirection.forward) scan.1.position),
     s.whereF.filter (fun p => !(scan.2.contains p.1)))

/-- `meta.navigationType || options.navigationType` (SbisService.ts line 339). -/
def effectiveNavType (opts : OptionsOption) (s : SubQuery) : NavigationType :=
  s.metaNavType.getD opts.navigationType

/-- One iteration of `getNavigationParams` (SbisService.ts lines 327-387): the
navigation payload for a sub-query and the sub-query's filter after the position-mode
deletions (other modes leave the filter untouched). -/
def subQueryNav (opts : OptionsOption) (s : SubQuery) : Option NavParams × JsObject :=
  match effectiveNavType opts s with
  | NavigationType.Page => (pageNavParams s, s.whereF)
  | NavigationType.Position => positionNavParams s
  | NavigationType.Offset => (offsetNavParams s, s.whereF)

/-- `getNavigationParams` over the flattened sub-query list (`eachQuery` visits the
query and its unioned sub-queries in preorder; the list is that preorder): the
per-sub-query payloads and the sub-queries with their filters as mutated by the
position branch. -/
def getNavigationParams (opts : OptionsOption) (subs : List SubQuery) :
    List (Option NavParams) × List SubQuery :=
  (subs.map (fun s => (subQueryNav opts s).1),
   subs.map (fun s => { s with whereF := (subQueryNav opts s).2 }))

/-- The hierarchy fields added by `getFilterParams` (SbisService.ts lines 447-466)
for a meta `expand` value. -/
def expandFields (m : JsObject) (e : Option ExpandMode) : JsObject :=
  match e with
  | none => m
  | some ExpandMode.noExpand => objSet m "Разворот" (JsValue.str "Без разворота")
  | some ExpandMode.nodes =>
    objSet (objSet m "Разворот" (JsValue.str "С разворотом")) "ВидДерева"
      (JsValue.str "Только узлы")
  | some ExpandMode.leaves =>
    objSet (objSet m "Разворот" (JsValue.str "С разворотом")) "ВидДерева"
      (JsValue.str "Только листья")
  | some ExpandMode.all =>
    objSet (objSet m "Разворот" (JsValue.str "С разворотом")) "ВидДерева"
      (JsValue.str "Узлы и листья")

/-- `getFilterParams` (SbisService.ts lines 428-472) over plain-object filters
(a filter that is already a structured record passes through unchanged and is out of
scope here; `expressionToObject` on a flat expression enumerates its key/value
pairs). -/
def getFilterParams (subs : List SubQuery) : List JsObject :=
  subs.map (fun s => expandFields s.whereF s.metaExpand)

/-- `mergeFilterParams` (SbisService.ts lines 474-496) for plain objects: fold the
per-section filters left to right with spread semantics — earlier keys keep their
position, later values win, new keys are appended. -/
def mergeFilterParams (filters : List JsObject) : JsObject :=
  filters.foldl (fun memo item => item.foldl (fun m p => objSet m p.1 p.2) memo) []

/-- Whether a filter value is tagged as a primary-key value
(`value instanceof applied.PrimaryKey`, SbisService.ts line 408). -/
def isPKValue : JsValue → Bool
  | JsValue.pk _ => true
  | _ => false

/-- The first filter entry whose value is a primary-key value. -/
def firstPKEntry (f : JsObject) : Option (String × JsValue) :=
  f.find? (fun p => isPKValue p.2)

/-- `getMultipleNavigation`'s per-section filter mutation (SbisService.ts lines
407-414): every primary-key entry is deleted from the section filter. -/
def removePKs (f : JsObject) : JsObject :=
  f.filter (fun p => !isPKValue p.2)

/-- `getMultipleNavigation` (SbisService.ts lines 397-423): for each section (in
order), the section id is the first primary-key value of that section's filter
(`null` when there is none; in the source `primaryKeys[0]`), every primary-key entry
is deleted from the section's filter, and the section navigation rides along (the
source wraps it through `buildRecord`, kept raw here). Returns the ordered
(sectionId, navigation) pairs and the filters after the deletions. -/
def getMultipleNavigation (summaryNav : List (Option NavParams))
    (summaryFilter : List JsObject) :
    List (Option JsValue × Option NavParams) × List JsObject :=
  match summaryNav, summaryFilter with
  | [], fs => ([], fs)
  | n :: ns, [] =>
    (((firstPKEntry []).map Prod.snd, n) :: (getMultipleNavigation ns []).1, [])
  | n :: ns, f :: fs =>
    (((firstPKEntry f).map Prod.snd, n) :: (getMultipleNavigation ns fs).1,
     removePKs f :: (getMultipleNavigation ns fs).2)

/-- The `Навигация` component of the query payload (SbisService.ts lines 679-681):
a single record (possibly null) for at most one sub-query, a record-set of
(sectionId, navigation) pairs for multiple sub-queries. -/
inductive NavPayload where
  | empty : NavPayload
  | single : Option NavParams → NavPayload
  | multiple : List (Option JsValue × Option NavParams) → NavPayload
deriving DecidableEq, Repr

/-- The components of the `passQuery` result the claims concern (`Фильтр` and
`Навигация`, SbisService.ts lines 676-683; `Сортировка` and `ДопПоля` depend only on
the omitted `orderBy`/`select` components). -/
structure QueryArgs where
  filter : JsObject
  nav : NavPayload
deriving DecidableEq, Repr

/-- `passQuery` (SbisService.ts lines 664-684) on the flattened sub-query list:
compute the per-sub-query navigation (mutating the position-mode filters), then the
filter objects from the mutated filters; with more than one sub-query re-derive the
navigation through `getMultipleNavigation` (which deletes the primary-key entries
from the filters before they are merged). Returns the payload and the sub-queries as
they stand afterwards. -/
def passQuery (opts : OptionsOption) (subs : List SubQuery) :
    QueryArgs × List SubQuery :=
  let scan := getNavigationParams opts subs
  let filters := getFilterParams scan.2
  if 1 < scan.1.length then
    let mn := getMultipleNavigation scan.1 filters
    ({ filter := mergeFilterParams mn.2, nav := NavPayload.multiple mn.1 }, scan.2)
  else
    ({ filter := mergeFilterParams filters,
       nav := match scan.1 with
              | [] => NavPayload.empty
              | p :: _ => NavPayload.single p }, scan.2)

/-- Modelled from the spec: `object.clonePlain` (from `Types/util`, not under `src/`)
deep-copies the query before argument construction (SbisService.ts line 1198). In
this pure embedding a deep copy is the identity on values; what matters is that
`query()` hands the copy, not the caller's object, to the argument-construction
stage, so the stage's filter mutations never reach the caller's query. -/
def clonePlain (subs : List SubQuery) : List SubQuery := subs

/-- `SbisService.query` (SbisService.ts lines 1197-1205) restricted to argument
construction: clone the query, build the payload from the clone, and leave the
caller's query object as it was (the pair's second component is the caller's query
after the call). -/
def sbisServiceQuery (opts : OptionsOption) (subs : List SubQuery) :
    QueryArgs × List SubQuery :=
  ((passQuery opts (clonePlain subs)).1, subs)

/-- The navigation-type default of the options table: `NAVIGATION_TYPE.PAGE`
(part_001 lines 494-537), inherited unchanged by Rpc and SbisService
(SbisService.ts lines 1525-1538 only add `hasMoreProperty` and
`passAddFieldsFromMeta`). -/
def sbisServiceDefaultOptions : OptionsOption :=
  { navigationType := NavigationType.Page }

-- ---------------------------------------------------------------------------
-- Characterizations of the position-mode cursor scan (for the C3/C10 theorems)
-- ---------------------------------------------------------------------------
/-- Recursive property lookup in a plain object (first binding). -/
def objGetOpt : JsObject → String → Option JsValue
  | [], _ => none
  | p :: rest, f => if p.1 = f then some p.2 else objGetOpt rest f

/-- Lookup in a cursor's position map (`null` position has no entries). -/
def posLookup (c : CursorM) (f : String) : Option JsValue :=
  match c.position with
  | none => none
  | some m => objGetOpt m f

/-- Whether `applyPairToCursor` consumes a pair: the value is defined and the key
carries a trailing operator. -/
def consumableB (p : String × JsValue) : Bool :=
  decide (p.2 ≠ JsValue.undef) && (exprMatch p.1).isSome

/-- The bare field a filter key addresses, when it carries a trailing operator. -/
def bareFieldOf (k : String) : Option String :=
  (exprMatch k).map Prod.fst

/-- The direction one pair would assign to an unset cursor: defined value, operator
key, and an operand among `~`, `<`, `<=`. -/
def pairDir (p : String × JsValue) : Option CursorDirection :=
  if p.2 = JsValue.undef then none
  else
    match exprMatch p.1 with
    | some fo => opDirOf fo.2
    | none => none

/-- The direction assigned by the scan: the first consumed pair whose operand is
`~`, `<` or `<=` decides (later pairs cannot override); `>`/`>=` operands assign
nothing. -/
def firstSetDir : JsObject → Option CursorDirection
  | [] => none
  | p :: rest =>
    match pairDir p with
    | some d => some d
    | none => firstSetDir rest

/-- The direction field of a position-mode payload. -/
def navDirOf : Option NavParams → Option CursorDirection
  | some (NavParams.position _ _ d _) => some d
  | _ => none

/-- Lookup of a field in the position map of a position-mode payload. -/
def navPosGet : Option NavParams → String → Option JsValue
  | some (NavParams.position _ _ _ pos), f =>
    match pos with
    | some m => objGetOpt m f
    | none => none
  | _, _ => none

-- ---------------------------------------------------------------------------
-- updateOnlyChanged narrowing (src/unnamed/part_001 = Types/_source/Remote,
-- lines 99-130, 414-425)
-- ---------------------------------------------------------------------------
/-- A record/model as `passUpdate` reads it: its fields, the names of its changed
fields (`getChanged`; `isChanged()` holds exactly when some field changed), and its
own id property (`getIdProperty`). -/
structure RecModel where
  fields : JsObject
  changed : List String
  ownIdProp : String
deriving DecidableEq, Repr

/-- A record with the given fields and changed list and no own id property. -/
def mkRec (fs : JsObject) (ch : List String) : RecModel :=
  { fields := fs, changed := ch, ownIdProp := "" }

/-- `record.get(field)` — a missing field reads as `undefined`. -/
def recGet (r : RecModel) (f : String) : JsValue := objGet r.fields f

/-- `isNull` (part_001 lines 66-68): `null` or `undefined`. -/
def isNullJs (v : JsValue) : Bool := v = JsValue.null || v = JsValue.undef

/-- `isEmpty` (part_001 lines 70-72) on an id-property name: the empty string models
`''`/`null`/`undefined`. -/
def isEmptyStr (s : String) : Bool := s = ""

/-- The update payload: a single record or a record-set (with the set's configured
id property) — the two branches `passUpdate` distinguishes via
`isModelInstance`/`isListInstance`. -/
inductive UpdData where
  | record : RecModel → UpdData
  | rs : String → List RecModel → UpdData
deriving DecidableEq, Repr

/-- `_getValidIdProperty` (part_001 lines 414-425): the source's `idProperty` when
non-empty, else the payload's own id property. -/
def updDataIdProp : UpdData → String
  | UpdData.record r => r.ownIdProp
  | UpdData.rs ip _ => ip

/-- Modelled from the spec: `Record.filterFields` (from `Types/entity`, not under
`src/`) keeps exactly the fields whose names are listed ("narrows a single record to
its changed fields (id field always included)"). -/
def filterFields (r : RecModel) (names : List String) : RecModel :=
  { r with fields := r.fields.filter (fun p => names.contains p.1) }

/-- `passUpdate` (part_001 lines 99-130), the data component of the emitted
`[data, meta]` pair: with `updateOnlyChanged` and a resolvable id property, a model
whose id value is not null is narrowed to `[idProperty] ++ changed` fields
(`changed.unshift(idProperty)` then `filterFields`); a record-set keeps only members
whose id is null (new) or that are changed; anything else passes through. -/
def passUpdate (updateOnlyChanged : Bool) (sourceIdProp : String) (data : UpdData) :
    UpdData :=
  if updateOnlyChanged then
    let idProperty :=
      if isEmptyStr sourceIdProp then updDataIdProp data else sourceIdProp
    if !isEmptyStr idProperty then
      match data with
      | UpdData.record r =>
        if !isNullJs (recGet r idProperty) then
          UpdData.record (filterFields r (idProperty :: r.changed))
        else data
      | UpdData.rs ip items =>
        UpdData.rs ip (items.filter
          (fun r => isNullJs (recGet r idProperty) || !r.changed.isEmpty))
    else data
  else data

lemma takeWhile_split (k n : List Char) (hk : ∀ c ∈ k, c ≠ ',') :
    (k ++ ',' :: n).takeWhile (fun c => c != ',') = k := by
  induction k with
  | nil => simp [List.takeWhile]
  | cons a t ih =>
    have ha : a ≠ ',' := hk a (by simp)
    simp only [List.cons_append, List.takeWhile_cons]
    rw [if_pos (by simpa using ha)]
    rw [ih (fun c hc => hk c (by simp [hc]))]

lemma dropWhile_split (k n : List Char) (hk : ∀ c ∈ k, c ≠ ',') :
    (k ++ ',' :: n).dropWhile (fun c => c != ',') = ',' :: n := by
  induction k with
  | nil => simp [List.dropWhile]
  | cons a t ih =>
    have ha : a ≠ ',' := hk a (by simp)
    simp only [List.cons_append, List.dropWhile_cons]
    rw [if_pos (by simpa using ha)]
    exact ih (fun c hc => hk c (by simp [hc]))

lemma digit_ne_comma {c : Char} (h : isDigitCh c = true) : c ≠ ',' := by
  intro he
  subst he
  simp [isDigitCh] at h

lemma complexIdMatch_composite (k n : List Char)
    (hk0 : k ≠ []) (hk : k.all isDigitCh = true) (hn0 : n ≠ []) (hn : n.all isNameCh = true) :
    complexIdMatch (k ++ ',' :: n) = true := by
  have hkc : ∀ c ∈ k, c ≠ ',' := fun c hc =>
    digit_ne_comma (by exact List.all_eq_true.mp hk c hc)
  unfold complexIdMatch
  rw [dropWhile_split k n hkc]
  simp only [takeWhile_split k n hkc]
  simp [hk0, hk, hn0, hn]

/-- C4 counterexample: the identifier "1,_" does not match the claimed pattern
`^[0-9]+,[A-Za-z0-9]+$`, so by the claim its key would be the whole string "1,_";
but the source's pattern `^[0-9]+,[А-яA-z0-9]+$` accepts `_` (the `A-z` range spans
ASCII 65..122), so `getKeyByComplexId` treats it as composite and returns "1". -/
theorem C4_complexId_counterexample :
    specComplexIdMatch ['1', ',', '_'] = false ∧
    getKeyByComplexId ['1', ',', '_'] = ['1'] ∧
    getKeyByComplexId ['1', ',', '_'] ≠ ['1', ',', '_'] := by
  refine ⟨by decide, by decide, by decide⟩

/-- C4 (amended): an identifier is treated as composite exactly when it matches the
source pattern `^[0-9]+,[А-яA-z0-9]+$` (digits, one comma, then characters from the
ASCII range `A`..`z` — including `[`, `]`, `^`, `_` and the backtick — digits, or the
Cyrillic range `А`..`я`); on a match the key is the prefix before the comma and the
name is the suffix after it, and for every non-matching identifier the key is the
whole string and the name is the supplied default contract. -/
theorem C4_complexId_amended :
    (∀ (k n d : List Char), k ≠ [] → k.all isDigitCh = true → n ≠ [] → n.all isNameCh = true →
      getKeyByComplexId (k ++ ',' :: n) = k ∧ getNameByComplexId (k ++ ',' :: n) d = n) ∧
    (∀ (s d : List Char), complexIdMatch s = false →
      getKeyByComplexId s = s ∧ getNameByComplexId s d = d) := by
  constructor
  · intro k n d hk0 hk hn0 hn
    have hkc : ∀ c ∈ k, c ≠ ',' := fun c hc => digit_ne_comma (List.all_eq_true.mp hk c hc)
    have hm := complexIdMatch_composite k n hk0 hk hn0 hn
    constructor
    · rw [getKeyByComplexId, if_pos hm, takeWhile_split k n hkc]
    · rw [getNameByComplexId, if_pos hm, dropWhile_split k n hkc]
      rfl
  · intro s d h
    constructor <;> simp [getKeyByComplexId, getNameByComplexId, h]

/-- C4 witness: "42,Orders" parses to key "42" and name "Orders" via the amended
theorem, discharging its hypotheses at this concrete composite identifier. -/
theorem C4_complexId_amended_witness :
    getKeyByComplexId (['4', '2'] ++ ',' :: ['O', 'r', 'd', 'e', 'r', 's']) = ['4', '2'] ∧
    getNameByComplexId (['4', '2'] ++ ',' :: ['O', 'r', 'd', 'e', 'r', 's']) ['D'] =
      ['O', 'r', 'd', 'e', 'r', 's'] :=
  C4_complexId_amended.1 ['4', '2'] ['O', 'r', 'd', 'e', 'r', 's'] ['D']
    (by decide) (by decide) (by decide) (by decide)

lemma upsertGroup_glookup (gs : List (String × List String)) (name key n : String) :
    glookup (upsertGroup gs name key) n =
      if n = name then some ((glookup gs name).getD [] ++ [key]) else glookup gs n := by
  induction gs with
  | nil =>
    rcases eq_or_ne n name with h | h
    · subst h
      simp [upsertGroup, glookup]
    · simp [upsertGroup, glookup, h, Ne.symm h]
  | cons p rest ih =>
    obtain ⟨m, ks⟩ := p
    rcases eq_or_ne m name with hm | hm
    · subst hm
      rcases eq_or_ne n m with h | h
      · subst h
        simp [upsertGroup, glookup]
      · simp [upsertGroup, glookup, h, Ne.symm h]
    · rcases eq_or_ne n m with h | h
      · subst h
        simp [upsertGroup, glookup, hm, Ne.symm hm]
      · simp [upsertGroup, glookup, hm, h, Ne.symm h, ih]

lemma upsertGroup_fst (gs : List (String × List String)) (name key : String) :
    (upsertGroup gs name key).map Prod.fst =
      if (gs.map Prod.fst).contains name then gs.map Prod.fst
      else gs.map Prod.fst ++ [name] := by
  induction gs with
  | nil => simp [upsertGroup]
  | cons p rest ih =>
    obtain ⟨m, ks⟩ := p
    rcases eq_or_ne m name with hm | hm
    · subst hm
      simp [upsertGroup, List.contains_cons]
    · have hnm : (name == m) = false := by
        simp only [beq_eq_false_iff_ne, ne_eq]
        exact fun he => hm he.symm
      simp only [upsertGroup, if_neg hm, List.map_cons, ih, List.contains_cons, hnm,
        Bool.false_or]
      by_cases h : (List.map Prod.fst rest).contains name = true
      · simp only [if_pos h]
      · simp only [if_neg h]
        rfl

lemma groupsCreate_glookup (ids : List String) (d : String) :
    ∀ acc n, glookup (groupsCreate ids d acc) n =
      if ids.any (fun i => getNameS i d = n) || (glookup acc n).isSome then
        some ((glookup acc n).getD [] ++ keysOfName ids d n)
      else none := by
  induction ids with
  | nil =>
    intro acc n
    cases h : glookup acc n <;> simp [groupsCreate, keysOfName, h]
  | cons id rest ih =>
    intro acc n
    simp only [groupsCreate]
    rw [ih]
    by_cases hn : getNameS id d = n
    · have hup : glookup (upsertGroup acc (getNameS id d) (getKeyS id)) n =
          some ((glookup acc n).getD [] ++ [getKeyS id]) := by
        rw [upsertGroup_glookup, if_pos hn.symm, hn]
      rw [hup]
      have h2 : keysOfName (id :: rest) d n = getKeyS id :: keysOfName rest d n := by
        rw [keysOfName, List.filter_cons, if_pos (by simp [hn]), List.map_cons]
        rfl
      simp [List.any_cons, hn, h2, List.append_assoc]
    · have hup : glookup (upsertGroup acc (getNameS id d) (getKeyS id)) n =
          glookup acc n := by
        rw [upsertGroup_glookup, if_neg (fun he => hn he.symm)]
      rw [hup]
      have h2 : keysOfName (id :: rest) d n = keysOfName rest d n := by
        rw [keysOfName, List.filter_cons, if_neg (by simp [hn])]
        rfl
      simp [List.any_cons, hn, h2]

lemma groupsCreate_fst (ids : List String) (d : String) :
    ∀ acc, (groupsCreate ids d acc).map Prod.fst = namesFirstSeen ids d (acc.map Prod.fst) := by
  induction ids with
  | nil => intro acc; rfl
  | cons id rest ih =>
    intro acc
    simp only [groupsCreate, namesFirstSeen]
    rw [ih, upsertGroup_fst]

/-- C8 counterexample: grouping ["1,9","2,3"] first sees object name "9", then "3",
but both names are ECMAScript array-index keys, so the groups object enumerates them
in ascending numeric order ["3","9"], not in first-seen insertion order ["9","3"] —
the across-groups part of the claim fails for integer-like object names. -/
theorem C8_grouping_counterexample :
    jsOwnKeys (getGroupsByComplexIds ["1,9", "2,3"] "D") = ["3", "9"] ∧
    namesFirstSeen ["1,9", "2,3"] "D" [] = ["9", "3"] ∧
    (["3", "9"] : List String) ≠ ["9", "3"] := by
  refine ⟨by decide, by decide, by decide⟩

/-- C8 (amended): grouping partitions the identifier list into a mapping from object
name to the ordered list of plain keys; within each group the keys keep identifier
order, and the mapping's properties are created in first-seen order of the names.
Enumeration of the groups object (as used to dispatch the per-group calls) follows
ECMAScript own-key order: array-index-like names first in ascending numeric order,
then the remaining names in first-seen creation order. -/
theorem C8_grouping_amended :
    (∀ (ids : List String) (d n : String), ids.any (fun i => getNameS i d = n) = true →
      glookup (getGroupsByComplexIds ids d) n = some (keysOfName ids d n)) ∧
    (∀ (ids : List String) (d : String),
      (getGroupsByComplexIds ids d).map Prod.fst = namesFirstSeen ids d []) ∧
    (∀ (ids : List String) (d : String),
      jsOwnKeys (getGroupsByComplexIds ids d) = jsKeysEnum (namesFirstSeen ids d [])) := by
  refine ⟨?_, ?_, ?_⟩
  · intro ids d n h
    rw [getGroupsByComplexIds, groupsCreate_glookup]
    simp [h, glookup]
  · intro ids d
    have h := groupsCreate_fst ids d []
    simpa [getGroupsByComplexIds] using h
  · intro ids d
    rw [jsOwnKeys, getGroupsByComplexIds, groupsCreate_fst]
    rfl

/-- C8 witness: grouping ["1,A","2,B","3,A"] with default "D" yields group "A" with
keys ["1","3"] and groups created in first-seen order ["A","B"], by the
amended theorem applied at this concrete input. -/
theorem C8_grouping_amended_witness :
    (["1,A", "2,B", "3,A"].any (fun i => getNameS i "D" = "A") = true) ∧
    glookup (getGroupsByComplexIds ["1,A", "2,B", "3,A"] "D") "A" = some ["1", "3"] ∧
    (getGroupsByComplexIds ["1,A", "2,B", "3,A"] "D").map Prod.fst = ["A", "B"] := by
  refine ⟨by decide, ?_, ?_⟩
  · exact (C8_grouping_amended.1 ["1,A", "2,B", "3,A"] "D" "A" (by decide)).trans (by decide)
  · exact (C8_grouping_amended.2.1 ["1,A", "2,B", "3,A"] "D").trans (by decide)

/-- C1: at the failing input — a 100ms call-timeout budget with a transport resolving
at 500ms — the caller-visible settlement of `SbisBusinessLogic.call` is the transport's
own resolution at 500ms, not a timeout rejection at ~100ms; the timer callback only
logged the timeout message. This contradicts the claim (and the source's own doc
comment on `getTimedOutResponse`, lines 53-60: "Returns promise which rejecting with
error if origin does not return any result during specified timeout"): the timeout is
logged but never surfaced as a rejection to the caller. -/
theorem C1_timeout_code_bug :
    sbisBlCall 100 "Employee" "/service/" "Список"
        (fun _ => Settle.resolved 500 (42 : Nat)) =
      (Settle.resolved 500 42, [timeoutMessage 100 "Employee.Список" "/service/"]) ∧
    (sbisBlCall 100 "Employee" "/service/" "Список"
        (fun _ => Settle.resolved 500 (42 : Nat))).1 ≠ Settle.rejected 100 (timeoutMessage 100 "Employee.Список" "/service/") := by
  refine ⟨by decide, by decide⟩

lemma promiseAll_err {ε α : Type} :
    ∀ (l : List (POutcome ε α)), (∃ x ∈ l, x.isOk = false) → ∃ e, promiseAll l = .err e := by
  intro l
  induction l with
  | nil => rintro ⟨x, hx, _⟩; cases hx
  | cons a rest ih =>
    rintro ⟨x, hx, hxo⟩
    rcases List.mem_cons.mp hx with h | h
    · subst h
      cases x with
      | ok v => simp [POutcome.isOk] at hxo
      | err e =>
        exact ⟨e, rfl⟩
    · cases a with
      | ok v =>
        obtain ⟨e, he⟩ := ih ⟨x, h, hxo⟩
        exact ⟨e, by simp [promiseAll, he]⟩
      | err e => exact ⟨e, rfl⟩

lemma promiseAll_ok {ε α : Type} :
    ∀ (l : List (POutcome ε α)), (∀ x ∈ l, x.isOk = true) → ∃ vs, promiseAll l = .ok vs := by
  intro l
  induction l with
  | nil => intro _; exact ⟨[], rfl⟩
  | cons a rest ih =>
    intro h
    cases a with
    | ok v =>
      obtain ⟨vs, hvs⟩ := ih (fun x hx => h x (List.mem_cons_of_mem _ hx))
      exact ⟨v :: vs, by simp [promiseAll, hvs]⟩
    | err e =>
      have := h (.err e) (List.mem_cons_self _ _)
      simp [POutcome.isOk] at this

lemma runCalls_err (calls : List (String × List String))
    (transport : String → List String → POutcome String Unit)
    (h : ∃ c ∈ calls, (transport c.1 c.2).isOk = false) :
    ∃ e, (runCalls calls transport).1 = POutcome.err e := by
  apply promiseAll_err
  obtain ⟨c, hc, hco⟩ := h
  exact ⟨transport c.1 c.2, List.mem_map_of_mem _ hc, hco⟩

lemma runCalls_ok (calls : List (String × List String))
    (transport : String → List String → POutcome String Unit)
    (h : ∀ c ∈ calls, (transport c.1 c.2).isOk = true) :
    ∃ vs, (runCalls calls transport).1 = POutcome.ok vs := by
  apply promiseAll_ok
  intro x hx
  obtain ⟨c, hc, rfl⟩ := List.mem_map.mp hx
  exact h c hc

lemma runCalls_persist (calls : List (String × List String))
    (transport : String → List String → POutcome String Unit)
    (c : String × List String) (hc : c ∈ calls) (hco : (transport c.1 c.2).isOk = true) :
    c ∈ (runCalls calls transport).2 :=
  List.mem_filter.mpr ⟨hc, hco⟩

/-- C2: for every identifier list, one remote call is issued per object-name group
(for both destroy and move, all dispatched before any is awaited); the aggregate
rejects whenever any group's call rejects and resolves when all resolve; and every
group whose own call resolved stays among the completed calls — no retraction or
compensation — so the aggregate rejecting does not undo a sibling group's effect. -/
theorem C2_multiGroup_nonatomic :
    ∀ (keys : List String) (contract destroyBinding moveContract moveBinding : String)
      (transport : String → List String → POutcome String Unit),
      (destroyCalls keys contract destroyBinding).length =
        (jsOwnKeys (getGroupsByComplexIds keys contract)).length ∧
      (moveCalls keys contract moveContract moveBinding).length =
        (jsOwnKeys (getGroupsByComplexIds keys contract)).length ∧
      ((∃ c ∈ destroyCalls keys contract destroyBinding, (transport c.1 c.2).isOk = false) →
        ∃ e, (destroyRun keys contract destroyBinding transport).1 = POutcome.err e) ∧
      ((∀ c ∈ destroyCalls keys contract destroyBinding, (transport c.1 c.2).isOk = true) →
        ∃ vs, (destroyRun keys contract destroyBinding transport).1 = POutcome.ok vs) ∧
      (∀ c ∈ destroyCalls keys contract destroyBinding, (transport c.1 c.2).isOk = true →
        c ∈ (destroyRun keys contract destroyBinding transport).2) ∧
      ((∃ c ∈ moveCalls keys contract moveContract moveBinding, (transport c.1 c.2).isOk = false) →
        ∃ e, (moveRun keys contract moveContract moveBinding transport).1 = POutcome.err e) ∧
      (∀ c ∈ moveCalls keys contract moveContract moveBinding, (transport c.1 c.2).isOk = true →
        c ∈ (moveRun keys contract moveContract moveBinding transport).2) := by
  intro keys contract destroyBinding moveContract moveBinding transport
  refine ⟨List.length_map _ _, List.length_map _ _, ?_, ?_, ?_, ?_, ?_⟩
  · exact runCalls_err _ transport
  · exact runCalls_ok _ transport
  · exact fun c hc hco => runCalls_persist _ transport c hc hco
  · exact runCalls_err _ transport
  · exact fun c hc hco => runCalls_persist _ transport c hc hco

/-- C2 witness: destroy(["1,A","2,B"]) with a transport that rejects group B's call
and resolves group A's — the aggregate rejects, while A's completed call ("A.Удалить"
on key "1") remains among the completed effects. -/
theorem C2_multiGroup_nonatomic_witness :
    (∃ c ∈ destroyCalls ["1,A", "2,B"] "D" "Удалить",
      (((fun n (_ : List String) => if n = "B.Удалить" then POutcome.err "boom"
          else POutcome.ok ()) : String → List String → POutcome String Unit) c.1 c.2).isOk
        = false) ∧
    (∃ e, (destroyRun ["1,A", "2,B"] "D" "Удалить"
      (fun n _ => if n = "B.Удалить" then POutcome.err "boom" else POutcome.ok ())).1 =
        POutcome.err e) ∧
    ("A.Удалить", ["1"]) ∈ (destroyRun ["1,A", "2,B"] "D" "Удалить"
      (fun n _ => if n = "B.Удалить" then POutcome.err "boom" else POutcome.ok ())).2 := by
  refine ⟨by decide, ?_, ?_⟩
  · exact (C2_multiGroup_nonatomic ["1,A", "2,B"] "D" "Удалить" "IndexNumber" "Move"
      (fun n _ => if n = "B.Удалить" then POutcome.err "boom" else POutcome.ok ())).2.2.1
      (by decide)
  · exact (C2_multiGroup_nonatomic ["1,A", "2,B"] "D" "Удалить" "IndexNumber" "Move"
      (fun n _ => if n = "B.Удалить" then POutcome.err "boom" else POutcome.ok ())).2.2.2.2.1
      ("A.Удалить", ["1"]) (by decide) (by decide)

lemma objSet_get_self (m : JsObject) (f : String) (v : JsValue) :
    objGetOpt (objSet m f v) f = some v := by
  induction m with
  | nil => simp [objSet, objGetOpt]
  | cons p rest ih =>
    by_cases hp : p.1 = f
    · simp [objSet, objGetOpt, hp]
    · simp [objSet, objGetOpt, hp, ih]

lemma objSet_get_other (m : JsObject) (g f : String) (v : JsValue) (h : g ≠ f) :
    objGetOpt (objSet m g v) f = objGetOpt m f := by
  induction m with
  | nil => simp [objSet, objGetOpt, h]
  | cons p rest ih =>
    by_cases hp : p.1 = g
    · have hpf : ¬p.1 = f := by rw [hp]; exact h
      simp [objSet, objGetOpt, hp, hpf, h, ih]
    · by_cases hpf : p.1 = f
      · have hfg : ¬f = g := fun he => h he.symm
        simp [objSet, objGetOpt, hp, hpf, hfg]
      · simp [objSet, objGetOpt, hp, hpf, ih]

lemma applyPair_fst (k : String) (v : JsValue) (c : CursorM) :
    (applyPairToCursor k v c).1 = consumableB (k, v) := by
  by_cases hv : v = JsValue.undef
  · simp [applyPairToCursor, consumableB, hv]
  · cases he : exprMatch k <;> simp [applyPairToCursor, consumableB, hv, he]

lemma applyPair_unchanged (k : String) (v : JsValue) (c : CursorM)
    (h : consumableB (k, v) = false) : (applyPairToCursor k v c).2 = c := by
  by_cases hv : v = JsValue.undef
  · simp [applyPairToCursor, hv]
  · cases he : exprMatch k with
    | none => simp [applyPairToCursor, hv, he]
    | some fo => simp [consumableB, hv, he] at h

lemma applyPair_dir_some (k : String) (v : JsValue) (c : CursorM) (d : CursorDirection)
    (h : c.direction = some d) : ((applyPairToCursor k v c).2).direction = some d := by
  by_cases hv : v = JsValue.undef
  · simp [applyPairToCursor, hv, h]
  · cases he : exprMatch k with
    | none => simp [applyPairToCursor, hv, he, h]
    | some fo =>
      by_cases hn : v = JsValue.null <;> simp [applyPairToCursor, hv, he, hn, h]

lemma applyPair_dir_eq (k : String) (v : JsValue) (c : CursorM)
    (h : c.direction = none) :
    ((applyPairToCursor k v c).2).direction = pairDir (k, v) := by
  by_cases hv : v = JsValue.undef
  · simp [applyPairToCursor, pairDir, hv, h]
  · cases he : exprMatch k with
    | none => simp [applyPairToCursor, pairDir, hv, he, h]
    | some fo =>
      by_cases hn : v = JsValue.null <;>
        simp [applyPairToCursor, pairDir, hv, he, hn, h]

lemma posScan_consumed : ∀ (w : JsObject) (c : CursorM),
    (posScan w c).2 = (w.filter consumableB).map Prod.fst := by
  intro w
  induction w with
  | nil => intro c; rfl
  | cons p rest ih =>
    intro c
    by_cases hc : consumableB p = true
    · simp [posScan, applyPair_fst, hc, ih, List.filter_cons]
    · simp only [Bool.not_eq_true] at hc
      simp [posScan, applyPair_fst, hc, ih, List.filter_cons]

lemma posScan_dir_some : ∀ (w : JsObject) (c : CursorM) (d : CursorDirection),
    c.direction = some d → ((posScan w c).1).direction = some d := by
  intro w
  induction w with
  | nil => intro c d h; exact h
  | cons p rest ih =>
    intro c d h
    exact ih _ d (applyPair_dir_some p.1 p.2 c d h)

lemma posScan_dir_none : ∀ (w : JsObject) (c : CursorM),
    c.direction = none → ((posScan w c).1).direction = firstSetDir w := by
  intro w
  induction w with
  | nil => intro c h; exact h
  | cons p rest ih =>
    intro c h
    have hstep := applyPair_dir_eq p.1 p.2 c h
    cases hpd : pairDir p with
    | some d =>
      have hfs : firstSetDir (p :: rest) = some d := by
        rw [firstSetDir, hpd]
      rw [hfs, posScan]
      exact posScan_dir_some rest _ d (by rw [hstep]; exact hpd)
    | none =>
      have hfs : firstSetDir (p :: rest) = firstSetDir rest := by
        rw [firstSetDir, hpd]
      rw [hfs, posScan]
      exact ih _ (by rw [hstep]; exact hpd)

lemma applyPair_pos_other (k : String) (v : JsValue) (c : CursorM) (f : String)
    (h : bareFieldOf k ≠ some f ∨ v = JsValue.null ∨ v = JsValue.undef) :
    posLookup ((applyPairToCursor k v c).2) f = posLookup c f := by
  by_cases hv : v = JsValue.undef
  · simp [applyPairToCursor, hv]
  · cases he : exprMatch k with
    | none => simp [applyPairToCursor, hv, he]
    | some fo =>
      by_cases hn : v = JsValue.null
      · by_cases hd : c.direction = none <;>
          simp [applyPairToCursor, posLookup, hv, he, hn, hd]
      · have hf : fo.1 ≠ f := by
          rcases h with h | h | h
          · intro hef
            exact h (by simp [bareFieldOf, he, hef])
          · exact absurd h hn
          · exact absurd h hv
        by_cases hd : c.direction = none <;>
          cases hpos : c.position <;>
            simp [applyPairToCursor, posLookup, hv, he, hn, hd, hpos, objGetOpt, hf,
              objSet_get_other _ fo.1 f v hf]

lemma applyPair_pos_self (k : String) (v : JsValue) (c : CursorM) (fo : String × String)
    (he : exprMatch k = some fo) (hv : v ≠ JsValue.undef) (hn : v ≠ JsValue.null) :
    posLookup ((applyPairToCursor k v c).2) fo.1 = some v := by
  by_cases hd : c.direction = none <;>
    cases hpos : c.position <;>
      simp [applyPairToCursor, posLookup, hv, he, hn, hd, hpos, objSet_get_self]

lemma posScan_pos_skip : ∀ (w : JsObject) (c : CursorM) (f : String),
    (∀ q ∈ w, bareFieldOf q.1 ≠ some f ∨ q.2 = JsValue.null ∨ q.2 = JsValue.undef) →
    posLookup ((posScan w c).1) f = posLookup c f := by
  intro w
  induction w with
  | nil => intro c f _; rfl
  | cons p rest ih =>
    intro c f h
    rw [posScan]
    rw [ih _ f (fun q hq => h q (List.mem_cons_of_mem _ hq))]
    exact applyPair_pos_other p.1 p.2 c f (h p (List.mem_cons_self _ _))

lemma posScan_append_cursor : ∀ (a b : JsObject) (c : CursorM),
    (posScan (a ++ b) c).1 = (posScan b ((posScan a c).1)).1 := by
  intro a
  induction a with
  | nil => intro b c; rfl
  | cons p rest ih =>
    intro b c
    rw [List.cons_append, posScan, posScan]
    exact ih b _

lemma nodup_keys_mem_eq {l : JsObject} (h : (l.map Prod.fst).Nodup)
    {p q : String × JsValue} (hp : p ∈ l) (hq : q ∈ l) (hk : p.1 = q.1) : p = q := by
  induction l with
  | nil => cases hp
  | cons r rest ih =>
    rw [List.map_cons, List.nodup_cons] at h
    rcases List.mem_cons.mp hp with hp1 | hp1 <;> rcases List.mem_cons.mp hq with hq1 | hq1
    · rw [hp1, hq1]
    · exfalso
      apply h.1
      have h2 : q.1 ∈ rest.map Prod.fst := List.mem_map_of_mem Prod.fst hq1
      rw [← hk, hp1] at h2
      exact h2
    · exfalso
      apply h.1
      have h2 : p.1 ∈ rest.map Prod.fst := List.mem_map_of_mem Prod.fst hp1
      rw [hk, hq1] at h2
      exact h2
    · exact ih h.2 hp1 hq1

lemma posScan_filter_eq (w : JsObject) (hnd : (w.map Prod.fst).Nodup) :
    w.filter
      (fun p => !(((posScan w { position := none, direction := none }).2).contains p.1)) =
      w.filter (fun p => !consumableB p) := by
  apply List.filter_congr
  intro p hp
  rw [posScan_consumed]
  by_cases hc : consumableB p = true
  · have hmem : p.1 ∈ (w.filter consumableB).map Prod.fst :=
      List.mem_map_of_mem _ (List.mem_filter.mpr ⟨hp, hc⟩)
    have hcont : ((w.filter consumableB).map Prod.fst).contains p.1 = true := by
      exact List.elem_iff.mpr hmem
    rw [hcont, hc]
  · simp only [Bool.not_eq_true] at hc
    have hnc : ((w.filter consumableB).map Prod.fst).contains p.1 = false := by
      by_contra hcc
      rw [Bool.not_eq_false] at hcc
      obtain ⟨q, hqf, hq1⟩ := List.mem_map.mp (List.elem_iff.mp hcc)
      have hqw := List.mem_filter.mp hqf
      have hpq : q = p := nodup_keys_mem_eq hnd hqw.1 hp hq1
      rw [hpq] at hqw
      rw [hqw.2] at hc
      cases hc
    rw [hnc, hc]

/-- C3 counterexample: position mode with filter {"a>": 1, "b<": 2} and a limit. By
the claim the first matched operand (`>` in "a>") fixes the direction, which would be
forward; but `applyPairToCursor`'s switch assigns nothing for `>`, so the later "b<"
pair sets the direction and the code emits backward. -/
theorem C3_position_direction_counterexample :
    navDirOf (positionNavParams
      { whereF := [("a>", JsValue.num 1), ("b<", JsValue.num 2)],
        offset := 0, limit := some 1,
        metaNavType := none, metaHasMore := none, metaExpand := none }).1 =
      some CursorDirection.backward ∧
    CursorDirection.backward ≠ CursorDirection.forward := by
  refine ⟨by decide, by decide⟩

/-- C3 (amended): in position mode (only when a limit is set), scanning the filter:
(1) assuming unique filter keys, the keys that are consumed — defined value and
trailing operator — are exactly the ones removed from the filter, and every other
entry stays; (2) the direction is decided by the first consumed pair whose operand is
`~` (bothways), `<` or `<=` (backward); `>`/`>=` operands fix nothing, and when no
pair assigns a direction the cursor defaults to forward; (3) a consumed pair with a
non-null defined value puts its value into the position map under the bare field name
(the last such pair for a field wins); (4) a field all of whose operator pairs carry
null (or undefined) values is absent from the position map. -/
theorem C3_position_cursor_amended :
    ∀ (s : SubQuery) (l : Int), s.limit = some l →
      ((s.whereF.map Prod.fst).Nodup →
        (positionNavParams s).2 = s.whereF.filter (fun p => !consumableB p)) ∧
      navDirOf (positionNavParams s).1 =
        some ((firstSetDir s.whereF).getD CursorDirection.forward) ∧
      (∀ (w1 w2 : JsObject) (k f op : String) (v : JsValue),
        s.whereF = w1 ++ (k, v) :: w2 → exprMatch k = some (f, op) →
        v ≠ JsValue.undef → v ≠ JsValue.null →
        (∀ q ∈ w2, bareFieldOf q.1 ≠ some f ∨ q.2 = JsValue.null ∨ q.2 = JsValue.undef) →
        navPosGet (positionNavParams s).1 f = some v) ∧
      (∀ f : String,
        (∀ q ∈ s.whereF, bareFieldOf q.1 = some f → q.2 = JsValue.null ∨ q.2 = JsValue.undef) →
        navPosGet (positionNavParams s).1 f = none) := by
  intro s l hlim
  refine ⟨?_, ?_, ?_, ?_⟩
  · intro hnd
    simp only [positionNavParams, hlim]
    exact posScan_filter_eq s.whereF hnd
  · simp only [positionNavParams, hlim, navDirOf]
    rw [posScan_dir_none s.whereF { position := none, direction := none } rfl]
  · intro w1 w2 k f op v hsplit he hv hn hskip
    simp only [positionNavParams, hlim, navPosGet]
    have hpos : (match ((posScan s.whereF { position := none, direction := none }).1).position with
        | some m => objGetOpt m f
        | none => none) =
        posLookup ((posScan s.whereF { position := none, direction := none }).1) f := by
      rw [posLookup]
      cases ((posScan s.whereF { position := none, direction := none }).1).position <;> rfl
    rw [hpos, hsplit, posScan_append_cursor]
    rw [posScan]
    rw [posScan_pos_skip w2 _ f hskip]
    exact applyPair_pos_self k v _ (f, op) he hv hn
  · intro f hnull
    simp only [positionNavParams, hlim, navPosGet]
    have hpos : (match ((posScan s.whereF { position := none, direction := none }).1).position with
        | some m => objGetOpt m f
        | none => none) =
        posLookup ((posScan s.whereF { position := none, direction := none }).1) f := by
      rw [posLookup]
      cases ((posScan s.whereF { position := none, direction := none }).1).position <;> rfl
    rw [hpos]
    rw [posScan_pos_skip s.whereF _ f ?_]
    · rfl
    · intro q hq
      by_cases hb : bareFieldOf q.1 = some f
      · rcases hnull q hq hb with h | h
        · exact Or.inr (Or.inl h)
        · exact Or.inr (Or.inr h)
      · exact Or.inl hb

/-- C3 witness: the claim's own example — position mode, filter {"date>=": D}, a
limit — via the amended theorem: direction forward (the `>=` operand assigns
nothing and nothing else does), position {date: D}, and the "date>=" key removed
from the filter. -/
theorem C3_position_cursor_amended_witness :
    (positionNavParams
      { whereF := [("date>=", JsValue.str "D")], offset := 0, limit := some 50,
        metaNavType := none, metaHasMore := none, metaExpand := none }).2 = [] ∧
    navDirOf (positionNavParams
      { whereF := [("date>=", JsValue.str "D")], offset := 0, limit := some 50,
        metaNavType := none, metaHasMore := none, metaExpand := none }).1 =
      some CursorDirection.forward ∧
    navPosGet (positionNavParams
      { whereF := [("date>=", JsValue.str "D")], offset := 0, limit := some 50,
        metaNavType := none, metaHasMore := none, metaExpand := none }).1 "date" =
      some (JsValue.str "D") := by
  have h := C3_position_cursor_amended
    { whereF := [("date>=", JsValue.str "D")], offset := 0, limit := some 50,
      metaNavType := none, metaHasMore := none, metaExpand := none } 50 rfl
  refine ⟨(h.1 (by decide)).trans (by decide), h.2.1.trans (by decide), ?_⟩
  exact h.2.2.1 [] [] "date>=" "date" ">=" (JsValue.str "D") rfl (by decide)
    (by decide) (by decide) (by intro q hq; cases hq)

/-- C5: in page mode the payload is suppressed exactly when offset is 0 and limit is
unset; with a positive limit the page index is floor(offset / limit) and the page
size is the limit; with a non-positive or unset limit the page index is 0. -/
theorem C5_page_navigation :
    ∀ (s : SubQuery),
      (pageNavParams s = none ↔ s.offset = 0 ∧ s.limit = none) ∧
      (∀ l : Int, s.limit = some l → 0 < l →
        pageNavParams s =
          some (NavParams.page (Int.fdiv s.offset l) (some l) (hasMoreOf s))) ∧
      (∀ l : Int, s.limit = some l → ¬0 < l →
        pageNavParams s = some (NavParams.page 0 (some l) (hasMoreOf s))) ∧
      (s.limit = none → ¬s.offset = 0 →
        pageNavParams s = some (NavParams.page 0 none (hasMoreOf s))) := by
  intro s
  refine ⟨?_, ?_, ?_, ?_⟩
  · by_cases ho : s.offset = 0
    · by_cases hl : s.limit = none
      · simp [pageNavParams, ho, hl]
      · simp [pageNavParams, ho, hl]
    · simp [pageNavParams, ho]
  · intro l hl hpos
    simp [pageNavParams, hl, hpos]
  · intro l hl hpos
    simp [pageNavParams, hl, hpos]
  · intro hl ho
    simp [pageNavParams, hl, ho]

/-- C5 witness: offset 20, limit 10 gives page 2, pageSize 10; offset 0 with no limit
suppresses the payload — the theorem applied at the claim's examples. -/
theorem C5_page_navigation_witness :
    pageNavParams (mkSub [] 20 (some 10)) = some (NavParams.page 2 (some 10) true) ∧
    pageNavParams (mkSub [] 0 none) = none := by
  constructor
  · exact ((C5_page_navigation (mkSub [] 20 (some 10))).2.1 10 rfl (by decide)).trans
      (by decide)
  · exact (C5_page_navigation (mkSub [] 0 none)).1.mpr ⟨rfl, rfl⟩

/-- C6: a source constructed without an explicit navigation mode has the page-based
default, so a sub-query without a per-query navigation type takes the page branch of
`getNavigationParams` (offset mode runs only when selected explicitly). -/
theorem C6_default_navigation_page :
    ∀ (s : SubQuery), s.metaNavType = none →
      effectiveNavType sbisServiceDefaultOptions s = NavigationType.Page ∧
      subQueryNav sbisServiceDefaultOptions s = (pageNavParams s, s.whereF) := by
  intro s h
  have he : effectiveNavType sbisServiceDefaultOptions s = NavigationType.Page := by
    simp [effectiveNavType, h, sbisServiceDefaultOptions]
  refine ⟨he, ?_⟩
  simp only [subQueryNav, he]

/-- C6 witness: a sub-query with offset 20, limit 10 and no per-query navigation
type gets the page-mode payload under the default options. -/
theorem C6_default_navigation_page_witness :
    subQueryNav sbisServiceDefaultOptions (mkSub [] 20 (some 10)) =
      (some (NavParams.page 2 (some 10) true), []) := by
  exact ((C6_default_navigation_page (mkSub [] 20 (some 10)) rfl).2).trans (by decide)

lemma gMN_fst_length : ∀ (nav : List (Option NavParams)) (filt : List JsObject),
    ((getMultipleNavigation nav filt).1).length = nav.length := by
  intro nav
  induction nav with
  | nil => intro filt; rfl
  | cons n ns ih =>
    intro filt
    cases filt with
    | nil => simp [getMultipleNavigation, ih]
    | cons f fs => simp [getMultipleNavigation, ih]

/-- C7: when more than one sub-query yields navigation parameters, the re-derived
payload is an ordered list, of the same length, of (sectionId, navigation) pairs:
for each section the id is the first primary-key-tagged filter value (null when no
such entry exists), the section's navigation rides along in order, and that first
primary-key entry is no longer in the section's filter afterwards (so it is not
merged into the wire filter). -/
theorem C7_multiple_navigation :
    ∀ (summaryNav : List (Option NavParams)) (summaryFilter : List JsObject) (i : Nat),
      i < summaryNav.length →
      ((getMultipleNavigation summaryNav summaryFilter).1).length = summaryNav.length ∧
      ((getMultipleNavigation summaryNav summaryFilter).1).getD i (none, none) =
        ((firstPKEntry (summaryFilter.getD i [])).map Prod.snd,
          summaryNav.getD i none) ∧
      (∀ e, firstPKEntry (summaryFilter.getD i []) = some e →
        e ∉ ((getMultipleNavigation summaryNav summaryFilter).2).getD i []) := by
  intro nav
  induction nav with
  | nil =>
    intro filt i h
    simp at h
  | cons n ns ih =>
    intro filt i h
    refine ⟨gMN_fst_length _ _, ?_, ?_⟩
    · cases filt with
      | nil =>
        cases i with
        | zero => simp [getMultipleNavigation]
        | succ j =>
          have hj : j < ns.length := by simpa using h
          simpa [getMultipleNavigation] using (ih [] j hj).2.1
      | cons f fs =>
        cases i with
        | zero => simp [getMultipleNavigation]
        | succ j =>
          have hj : j < ns.length := by simpa using h
          simpa [getMultipleNavigation] using (ih fs j hj).2.1
    · cases filt with
      | nil =>
        intro e he
        simp [firstPKEntry] at he
      | cons f fs =>
        cases i with
        | zero =>
          intro e he hmem
          have h1 : isPKValue e.2 = true := by
            have hf : List.find? (fun p => isPKValue p.2) f = some e := by
              simpa [firstPKEntry] using he
            simpa using List.find?_some hf
          have h2 : e ∈ f ∧ isPKValue e.2 = false := by
            simpa [getMultipleNavigation, removePKs] using hmem
          rw [h1] at h2
          exact absurd h2.2 (by simp)
        | succ j =>
          have hj : j < ns.length := by simpa using h
          intro e he
          have hrec := (ih fs j hj).2.2 e (by simpa using he)
          simpa [getMultipleNavigation] using hrec

/-- C7 witness: two sections where the first section's filter carries a primary-key
value 456 under "sectionId": the pair list keeps order and length, section 0's id is
the primary-key value, and the ("sectionId", 456) entry is gone from section 0's
filter. -/
theorem C7_multiple_navigation_witness :
    ((getMultipleNavigation [some (NavParams.page 2 (some 10) true), none]
      [[("sectionId", JsValue.pk 456), ("x", JsValue.num 1)], [("y", JsValue.num 2)]]).1).getD
        0 (none, none) =
      (some (JsValue.pk 456), some (NavParams.page 2 (some 10) true)) ∧
    ("sectionId", JsValue.pk 456) ∉
      ((getMultipleNavigation [some (NavParams.page 2 (some 10) true), none]
        [[("sectionId", JsValue.pk 456), ("x", JsValue.num 1)],
         [("y", JsValue.num 2)]]).2).getD 0 [] := by
  have h := C7_multiple_navigation [some (NavParams.page 2 (some 10) true), none]
    [[("sectionId", JsValue.pk 456), ("x", JsValue.num 1)], [("y", JsValue.num 2)]]
    0 (by decide)
  refine ⟨h.2.1.trans (by decide), h.2.2 ("sectionId", JsValue.pk 456) (by decide)⟩

/-- C9: with `updateOnlyChanged` and a resolvable, non-null identifier, a single
record's payload is narrowed to exactly the fields named by the identifier plus the
changed list — so with no changed fields only entries named by the identifier remain
— and a record-set payload is narrowed to exactly the members that are new (null id)
or changed. -/
theorem C9_updateOnlyChanged :
    ∀ (sip : String) (data : UpdData),
      (∀ (r : RecModel), data = UpdData.record r →
        ¬isEmptyStr (if isEmptyStr sip then r.ownIdProp else sip) = true →
        isNullJs (recGet r (if isEmptyStr sip then r.ownIdProp else sip)) = false →
        passUpdate true sip data =
          UpdData.record (filterFields r
            ((if isEmptyStr sip then r.ownIdProp else sip) :: r.changed)) ∧
        (r.changed = [] →
          passUpdate true sip data =
            UpdData.record (filterFields r
              [if isEmptyStr sip then r.ownIdProp else sip]))) ∧
      (∀ (ip : String) (items : List RecModel), data = UpdData.rs ip items →
        ¬isEmptyStr (if isEmptyStr sip then ip else sip) = true →
        passUpdate true sip data =
          UpdData.rs ip (items.filter
            (fun r => isNullJs (recGet r (if isEmptyStr sip then ip else sip)) ||
              !r.changed.isEmpty))) := by
  intro sip data
  constructor
  · intro r hdata hne hnull
    subst hdata
    constructor
    · simp [passUpdate, updDataIdProp, hne, hnull]
    · intro hch
      simp [passUpdate, updDataIdProp, hne, hnull, hch]
  · intro ip items hdata hne
    subst hdata
    simp [passUpdate, updDataIdProp, hne]

/-- C9 witness: a record with id field "id" = 1, an extra unchanged field and no
changed fields — the emitted payload keeps only the "id" field; and a two-member
record-set keeps only the changed member. -/
theorem C9_updateOnlyChanged_witness :
    passUpdate true "id"
      (UpdData.record (mkRec [("id", JsValue.num 1), ("title", JsValue.str "t")] [])) =
      UpdData.record (mkRec [("id", JsValue.num 1)] []) ∧
    passUpdate true "id"
      (UpdData.rs "id" [mkRec [("id", JsValue.num 1)] [],
        mkRec [("id", JsValue.num 2)] ["x"]]) =
      UpdData.rs "id" [mkRec [("id", JsValue.num 2)] ["x"]] := by
  constructor
  · have h := ((C9_updateOnlyChanged "id"
      (UpdData.record (mkRec [("id", JsValue.num 1), ("title", JsValue.str "t")] []))).1
      (mkRec [("id", JsValue.num 1), ("title", JsValue.str "t")] [])
      rfl (by decide) (by decide)).2 rfl
    exact h.trans (by decide)
  · have h := (C9_updateOnlyChanged "id"
      (UpdData.rs "id" [mkRec [("id", JsValue.num 1)] [],
        mkRec [("id", JsValue.num 2)] ["x"]])).2
      "id" [mkRec [("id", JsValue.num 1)] [], mkRec [("id", JsValue.num 2)] ["x"]]
      rfl (by decide)
    exact h.trans (by decide)

lemma foldl_objSet_get_absent :
    ∀ (w : JsObject) (m : JsObject) (k : String), (∀ q ∈ w, q.1 ≠ k) →
      objGetOpt (w.foldl (fun acc p => objSet acc p.1 p.2) m) k = objGetOpt m k := by
  intro w
  induction w with
  | nil => intro m k _; rfl
  | cons p rest ih =>
    intro m k h
    rw [List.foldl_cons]
    rw [ih _ k (fun q hq => h q (List.mem_cons_of_mem _ hq))]
    exact objSet_get_other m p.1 k p.2 (h p (List.mem_cons_self _ _))

lemma passQuery_single_filter (opts : OptionsOption) (s : SubQuery) :
    ((passQuery opts [s]).1).filter =
      mergeFilterParams [expandFields (subQueryNav opts s).2 s.metaExpand] := by
  rfl

lemma mergeFilterParams_single (w : JsObject) :
    mergeFilterParams [w] = w.foldl (fun m p => objSet m p.1 p.2) [] := by
  rfl

/-- C10: `query()` hands a clone to argument construction, so the caller's query —
its filter included — is unchanged after `query()` returns; and the frame matters:
in position mode the construction stage really does delete consumed operator keys,
so the emitted wire filter no longer contains such a key while the caller's retained
filter still does. -/
theorem C10_query_clone_frame :
    (∀ (opts : OptionsOption) (subs : List SubQuery),
      (sbisServiceQuery opts subs).2 = subs) ∧
    (∀ (opts : OptionsOption) (s : SubQuery) (l : Int) (kv : String × JsValue),
      effectiveNavType opts s = NavigationType.Position → s.limit = some l →
      s.metaExpand = none → kv ∈ s.whereF → consumableB kv = true →
      objGetOpt ((sbisServiceQuery opts [s]).1).filter kv.1 = none ∧
      kv ∈ (((sbisServiceQuery opts [s]).2).headD s).whereF) := by
  constructor
  · intro opts subs
    rfl
  · intro opts s l kv hEff hlim hExp hmem hcons
    refine ⟨?_, hmem⟩
    have hw : (subQueryNav opts s).2 = s.whereF.filter
        (fun p =>
          !(((posScan s.whereF { position := none, direction := none }).2).contains p.1)) := by
      simp only [subQueryNav, hEff, positionNavParams, hlim]
    have habs : ∀ q ∈ (subQueryNav opts s).2, q.1 ≠ kv.1 := by
      rw [hw]
      intro q hq hqk
      have h2 := List.mem_filter.mp hq
      have hkvmem : kv.1 ∈ (posScan s.whereF { position := none, direction := none }).2 := by
        rw [posScan_consumed]
        exact List.mem_map_of_mem _ (List.mem_filter.mpr ⟨hmem, hcons⟩)
      have hcont :
          ((posScan s.whereF { position := none, direction := none }).2).contains kv.1 =
            true := List.elem_iff.mpr hkvmem
      rw [hqk, hcont] at h2
      simp at h2
    show objGetOpt ((passQuery opts [s]).1).filter kv.1 = none
    rw [passQuery_single_filter opts s, hExp]
    simp only [expandFields]
    rw [mergeFilterParams_single]
    rw [foldl_objSet_get_absent _ [] kv.1 habs]
    rfl

/-- C10 witness: a position-mode singleton query with filter {"date>=": D} — the wire
filter has no "date>=" key, while the caller's query object still contains it after
`query()` returns. -/
theorem C10_query_clone_frame_witness :
    objGetOpt ((sbisServiceQuery { navigationType := NavigationType.Position }
      [mkSub [("date>=", JsValue.str "D")] 0 (some 50)]).1).filter "date>=" = none ∧
    ("date>=", JsValue.str "D") ∈
      (((sbisServiceQuery { navigationType := NavigationType.Position }
        [mkSub [("date>=", JsValue.str "D")] 0 (some 50)]).2).headD
          (mkSub [("date>=", JsValue.str "D")] 0 (some 50))).whereF := by
  exact C10_query_clone_frame.2 { navigationType := NavigationType.Position }
    (mkSub [("date>=", JsValue.str "D")] 0 (some 50)) 50
    ("date>=", JsValue.str "D") (by decide) rfl rfl (by decide) (by decide)

end SbisTypes
